import Mathlib

/-!
# Verification of the crypto-api caching layer and numeric canonicalization engine

Shallow embedding of `src/index.js` (the Express app with its in-memory cache,
stale-on-error fallback, periodic sweeper, and the market-cap text/number
conversion functions).  JavaScript numbers are modelled as `ℚ`; JavaScript
strings as `String`/`List Char`; fallible producers as `Except String α`;
the `Map` cache as an association list.  `Date.now()` and
`new Date().toISOString()` are passed in explicitly as a millisecond clock
value and an opaque ISO string.
-/

namespace CryptoApi

section RatEval

/- Batteries seals the `Rat` field operations as irreducible, which blocks
`decide` on concrete rational computations; restore the default status so
concrete envelopes and market-cap strings can be evaluated by the kernel. -/
attribute [local semireducible] Rat.mul Rat.add Rat.sub Rat.inv

/-! ## Character and digit utilities -/

/-- Decidable digit test, JS regex `\d` (the characters `'0'`–`'9'`). -/
def isDigitC (c : Char) : Bool := '0' ≤ c && c ≤ '9'

/-- The character kept by the JS regex replace `[^\d.-]` used throughout
`utils.js`: digits, the decimal point and the minus sign survive. -/
def keepC (c : Char) : Bool := isDigitC c || c = '.' || c = '-'

/-- `text.replace(/[^\d.-]/g, '')` on a character list. -/
def stripNonNumeric (s : List Char) : List Char := s.filter keepC

/-- The decimal digit character for `n % 10`. -/
def digitChar (n : Nat) : Char :=
  match n % 10 with
  | 0 => '0' | 1 => '1' | 2 => '2' | 3 => '3' | 4 => '4'
  | 5 => '5' | 6 => '6' | 7 => '7' | 8 => '8' | _ => '9'

/-- Decimal digit characters of `n`, most significant first, for `n ≠ 0`;
fuelled so that the kernel can evaluate it (`fuel = n` always suffices). -/
def natDigitsAux : Nat → Nat → List Char
  | 0, _ => []
  | fuel + 1, n =>
    if n = 0 then [] else natDigitsAux fuel (n / 10) ++ [digitChar (n % 10)]

/-- Decimal digit characters of a natural number, as JS renders integers. -/
def natDigits (n : Nat) : List Char :=
  if n = 0 then ['0'] else natDigitsAux n n

/-- One step of a decimal parser consuming a digit character. -/
def dstep (a : Nat) (c : Char) : Nat := 10 * a + (c.toNat - 48)

/-- Value of a digit-character list read left to right. -/
def digitsVal (l : List Char) : Nat := l.foldl dstep 0

/-! ## Substring containment (JS `String.prototype.includes`) -/

/-- `startsWithL hay needle`: `needle` is a leading run of `hay`. -/
def startsWithL : List Char → List Char → Bool
  | _, [] => true
  | [], _ :: _ => false
  | h :: hs, n :: ns => (h = n) && startsWithL hs ns

/-- `hasSubL hay needle`: `needle` occurs contiguously inside `hay`
(JS `hay.includes(needle)`). -/
def hasSubL : List Char → List Char → Bool
  | [], needle => needle.isEmpty
  | h :: t, needle => startsWithL (h :: t) needle || hasSubL t needle

/-- String-level wrapper for `includes`. -/
def strIncludes (hay needle : String) : Bool := hasSubL hay.data needle.data

/-- `endsWithL hay needle`: `hay` ends with `needle`. -/
def endsWithL (hay needle : List Char) : Bool :=
  startsWithL hay.reverse needle.reverse

/-! ## `parseFloat`

JS `parseFloat` on the stripped strings produced by this codebase: an optional
sign, an integer digit run, an optional `'.'` plus fraction digit run; any
trailing garbage is ignored; if no digit was consumed the result is `NaN`
(modelled as `none`).  The exponent production of full `parseFloat` cannot be
exercised here because every call site first strips letters. -/

def parseUnsigned (s : List Char) : Option ℚ :=
  let ip := s.takeWhile isDigitC
  let rest := s.dropWhile isDigitC
  let fp := match rest with
    | c :: r => if c = '.' then r.takeWhile isDigitC else []
    | [] => []
  if ip = [] ∧ fp = [] then none
  else some ((digitsVal ip : ℚ) + (digitsVal fp : ℚ) / 10 ^ fp.length)

def parseFloat (s : List Char) : Option ℚ :=
  match s with
  | [] => none
  | c :: rest =>
    if c = '-' then (parseUnsigned rest).map Neg.neg
    else if c = '+' then parseUnsigned rest
    else parseUnsigned (c :: rest)

/-! ## `Number.prototype.toFixed(2)` and `toLocaleString()`

`toFixed(2)` renders the value rounded to the nearest hundredth with exactly
two decimals.  Default `toLocaleString()` groups the integer part in threes
with commas and renders at most three fraction digits (trailing zeros
trimmed), rounding half away from zero.  Both are modelled over `ℚ`
(JS floats are idealized as rationals; the exponential-notation regime of
`toFixed` above 1e21 is outside the values considered here). -/

/-- Two-decimal rendering of a non-negative rational (`x.toFixed(2)`). -/
def fixed2Chars (q : ℚ) : List Char :=
  let n := (round (q * 100)).toNat
  natDigits (n / 100) ++ '.' :: [digitChar (n % 100 / 10), digitChar (n % 100)]

/-- `toFixed(2)` including the sign. -/
def toFixed2 (q : ℚ) : List Char :=
  if q < 0 then '-' :: fixed2Chars (-q) else fixed2Chars q

/-- Comma grouping of a reversed digit list (helper for `group3`). -/
def group3R : List Char → List Char
  | a :: b :: c :: d :: rest => a :: b :: c :: ',' :: group3R (d :: rest)
  | l => l

/-- Insert `','` every three digits from the right (en-US locale grouping). -/
def group3 (ds : List Char) : List Char := (group3R ds.reverse).reverse

/-- Fraction digits (most significant first) of `f = round(1000*q) % 1000`,
`1 ≤ f ≤ 999`, with trailing zeros trimmed as the locale rendering does. -/
def fracDigits (f : Nat) : List Char :=
  if f % 100 = 0 then [digitChar (f / 100)]
  else if f % 10 = 0 then [digitChar (f / 100), digitChar (f / 10)]
  else [digitChar (f / 100), digitChar (f / 10), digitChar f]

/-- Default `toLocaleString()` of a non-negative rational. -/
def localeChars (q : ℚ) : List Char :=
  let m := (round (q * 1000)).toNat
  group3 (natDigits (m / 1000)) ++
    (if m % 1000 = 0 then [] else '.' :: fracDigits (m % 1000))

/-- `value.toLocaleString()` including the sign. -/
def toLocaleStr (q : ℚ) : List Char :=
  if q < 0 then '-' :: localeChars (-q) else localeChars q

/-! ## The canonicalization engine (`utils.js`) -/

/-- `marketCapNumToText` (src/index.js lines 700–710): tiered formatting with
inclusive lower bounds `≥ 1e12` → "trillion", `≥ 1e9` → "billion",
`≥ 1e6` → "million", else a `$`-prefixed locale-grouped decimal. -/
def marketCapNumToText (value : ℚ) : String :=
  if value ≥ 10 ^ 12 then
    String.mk ('$' :: toFixed2 (value / 10 ^ 12) ++ " trillion".data)
  else if value ≥ 10 ^ 9 then
    String.mk ('$' :: toFixed2 (value / 10 ^ 9) ++ " billion".data)
  else if value ≥ 10 ^ 6 then
    String.mk ('$' :: toFixed2 (value / 10 ^ 6) ++ " million".data)
  else
    String.mk ('$' :: toLocaleStr value)

/-- `marketCapTextToNum` (src/index.js lines 717–727): case-sensitive
substring scale detection in source order — `trillion`/`T`, then
`million`/`M`, then `billion`/`B` — then `parseFloat` of the stripped text
times the multiplier.  `none` models the `NaN` result. -/
def marketCapTextToNum (marketCapText : String) : Option ℚ :=
  if strIncludes marketCapText "trillion" || strIncludes marketCapText "T" then
    (parseFloat (stripNonNumeric marketCapText.data)).map (· * 10 ^ 12)
  else if strIncludes marketCapText "million" || strIncludes marketCapText "M" then
    (parseFloat (stripNonNumeric marketCapText.data)).map (· * 10 ^ 6)
  else if strIncludes marketCapText "billion" || strIncludes marketCapText "B" then
    (parseFloat (stripNonNumeric marketCapText.data)).map (· * 10 ^ 9)
  else
    parseFloat (stripNonNumeric marketCapText.data)

/-- Scale detector of the spec's claim (`Modelled from the spec`, for
comparison with the code): case-insensitive containment, first-match order
"trillion"/"T" → 10¹², then "billion"/"B" → 10⁹, then "million"/"M" → 10⁶,
else 1. -/
def claimScaleOf (t : String) : ℚ :=
  let d := t.data.map Char.toLower
  if hasSubL d "trillion".data || hasSubL d ['t'] then 10 ^ 12
  else if hasSubL d "billion".data || hasSubL d ['b'] then 10 ^ 9
  else if hasSubL d "million".data || hasSubL d ['m'] then 10 ^ 6
  else 1

/-- The scale multiplier the code actually selects (case-sensitive, source
order trillion/T, million/M, billion/B). -/
def scaleOf (t : String) : ℚ :=
  if strIncludes t "trillion" || strIncludes t "T" then 10 ^ 12
  else if strIncludes t "million" || strIncludes t "M" then 10 ^ 6
  else if strIncludes t "billion" || strIncludes t "B" then 10 ^ 9
  else 1

/-! ## The cache layer (src/index.js lines 11–73)

The `Map` is an association list keyed by strings; `Date.now()` is an `ℤ`
millisecond clock passed explicitly; `new Date().toISOString()` is an opaque
string argument.  A producer (`scraperFunction`) is modelled by the outcome
it would have if invoked: `Except.error e` for a rejected promise with error
message `e`.  `getCachedData` additionally returns how many times the
producer was invoked (0 or 1), instrumenting the claims about producer-call
counts. -/

deriving instance DecidableEq for Except

/-- `CACHE_DURATION = 5 * 60 * 1000` (five minutes in milliseconds). -/
def CACHE_DURATION : ℤ := 5 * 60 * 1000

/-- The response envelope `{status, timestamp, data}` built on a successful
fetch and stored in the cache. -/
structure Envelope (α : Type) where
  status : String
  timestamp : String
  data : α
  deriving DecidableEq, Repr

/-- One cache entry: `{data: responseData, timestamp: Date.now()}`. -/
structure CacheEntry (α : Type) where
  data : Envelope α
  timestamp : ℤ
  deriving DecidableEq, Repr

/-- The in-memory `Map`, as an association list in insertion order. -/
abbrev Cache (α : Type) : Type := List (String × CacheEntry α)

/-- `cache.get(key)`. -/
def mapGet {α : Type} : Cache α → String → Option (CacheEntry α)
  | [], _ => none
  | (k', v) :: rest, k => if k' = k then some v else mapGet rest k

/-- `cache.set(key, value)`: overwrite in place, or append a new binding. -/
def mapSet {α : Type} : Cache α → String → CacheEntry α → Cache α
  | [], k, v => [(k, v)]
  | (k', v') :: rest, k, v =>
    if k' = k then (k, v) :: rest else (k', v') :: mapSet rest k v

/-- The keys currently bound in the cache. -/
def cacheKeys {α : Type} (c : Cache α) : List String := c.map Prod.fst

/-- The miss/refresh path of `getCachedData` (lines 30–45): invoke the
producer; on success build the envelope, store it, and return it; on failure
the raised error propagates with the cache untouched. -/
def fetchFresh {α : Type} (cache : Cache α) (now : ℤ) (nowIso : String)
    (cacheKey : String) (scraperResult : Except String α) :
    Except String (Envelope α) × Cache α × Nat :=
  match scraperResult with
  | Except.error e => (Except.error e, cache, 1)
  | Except.ok freshData =>
    let responseData : Envelope α :=
      { status := "success", timestamp := nowIso, data := freshData }
    (Except.ok responseData,
     mapSet cache cacheKey { data := responseData, timestamp := now }, 1)

/-- `getCachedData` (lines 22–46): serve the stored envelope when the entry
is younger than `CACHE_DURATION`, otherwise fetch fresh data. -/
def getCachedData {α : Type} (cache : Cache α) (now : ℤ) (nowIso : String)
    (cacheKey : String) (scraperResult : Except String α) :
    Except String (Envelope α) × Cache α × Nat :=
  match mapGet cache cacheKey with
  | some cached =>
    if now - cached.timestamp < CACHE_DURATION then
      (Except.ok cached.data, cache, 0)
    else fetchFresh cache now nowIso cacheKey scraperResult
  | none => fetchFresh cache now nowIso cacheKey scraperResult

/-- JSON body (plus HTTP status) of a response served at the API boundary:
`{status, timestamp, data?, count?, message?, error?}` with absent fields as
`none`. -/
structure ApiResponse (α : Type) where
  httpStatus : Nat
  status : String
  timestamp : String
  data : Option α
  count : Option Nat
  message : Option String
  error : Option String
  deriving DecidableEq, Repr

/-- `handleErrorWithCacheFallback` (lines 55–73): serve any stored envelope
spread together with the fixed marker message, else a 500 error envelope. -/
def handleErrorWithCacheFallback {α : Type} (cache : Cache α)
    (cacheKey : String) (errText : String) (nowIso : String)
    (errorMessage : String) : ApiResponse α :=
  match mapGet cache cacheKey with
  | some cached =>
    { httpStatus := 200, status := cached.data.status,
      timestamp := cached.data.timestamp, data := some cached.data.data,
      count := none, message := some "Serving cached data due to fetch error",
      error := none }
  | none =>
    { httpStatus := 500, status := "error", timestamp := nowIso,
      data := none, count := none, message := some errorMessage,
      error := some errText }

/-- One of the list-shaped endpoints (`/trending-coins` etc., lines 79–99):
try `getCachedData`; an empty list yields a 404; success spreads the
envelope plus `count`; a raised error goes to the fallback handler. -/
def listEndpoint {β : Type} (cache : Cache (List β)) (now : ℤ)
    (nowIso : String) (key : String) (producer : Except String (List β))
    (notFoundMsg errMsg : String) :
    ApiResponse (List β) × Cache (List β) × Nat :=
  match getCachedData cache now nowIso key producer with
  | (Except.ok result, c', n) =>
    if result.data.length = 0 then
      ({ httpStatus := 404, status := "error", timestamp := nowIso,
         data := none, count := none, message := some notFoundMsg,
         error := none }, c', n)
    else
      ({ httpStatus := 200, status := result.status,
         timestamp := result.timestamp, data := some result.data,
         count := some result.data.length, message := none,
         error := none }, c', n)
  | (Except.error e, c', n) =>
    (handleErrorWithCacheFallback c' key e nowIso errMsg, c', n)

/-- `cleanupCache` (lines 246–260): one sweep pass deleting every entry
older than `2 * CACHE_DURATION`, together with the `cleanedCount` it
reports. -/
def cleanupCache {α : Type} (cache : Cache α) (now : ℤ) : Cache α × Nat :=
  (cache.filter (fun kv => !decide (now - kv.2.timestamp > 2 * CACHE_DURATION)),
   (cache.filter (fun kv => decide (now - kv.2.timestamp > 2 * CACHE_DURATION))).length)

/-! ## The ranking-table scrapers (src/index.js lines 421–651)

The DOM extraction of one table row is an external collaborator; a page is
modelled as the list of its rows, each carrying its
`table__sponsored-row` flag and the record the row's cells yield.  The
embedded logic is the `each` loop: skip sponsored rows, push the record,
increment the counter and stop once it reaches 10. -/

def collectRowsAux {β : Type} : List (Bool × β) → Nat → List β
  | [], _ => []
  | (sponsored, r) :: rest, n =>
    if sponsored then collectRowsAux rest n
    else if n + 1 ≥ 10 then [r]
    else r :: collectRowsAux rest (n + 1)

/-- `scrapeTopGainers` (lines 421–493) as a function of the page's rows. -/
def scrapeTopGainers {β : Type} (rows : List (Bool × β)) : List β :=
  collectRowsAux rows 0

/-- `scrapeTopLosers` (lines 499–571) as a function of the page's rows. -/
def scrapeTopLosers {β : Type} (rows : List (Bool × β)) : List β :=
  collectRowsAux rows 0

/-- `allTimeHighs` (lines 574–651) as a function of the page's rows. -/
def allTimeHighs {β : Type} (rows : List (Bool × β)) : List β :=
  collectRowsAux rows 0

/-! ## Lemmas: substring containment -/

theorem startsWithL_append_left (xs ys : List Char) :
    startsWithL (xs ++ ys) xs = true := by
  induction xs with
  | nil => cases ys <;> rfl
  | cons c cs ih => simp [startsWithL, ih]

theorem hasSubL_append_right (xs needle : List Char) :
    hasSubL (xs ++ needle) needle = true := by
  induction xs with
  | nil =>
    cases needle with
    | nil => rfl
    | cons c cs =>
      have h := startsWithL_append_left (c :: cs) []
      simp at h
      simp [hasSubL, h]
  | cons c cs ih =>
    simp [hasSubL, ih]

theorem mem_of_startsWithL {hay needle : List Char}
    (h : startsWithL hay needle = true) : ∀ c ∈ needle, c ∈ hay := by
  induction needle generalizing hay with
  | nil => intro c hc; cases hc
  | cons n ns ih =>
    cases hay with
    | nil => cases h
    | cons x xs =>
      simp only [startsWithL, Bool.and_eq_true, decide_eq_true_eq] at h
      intro c hc
      rcases List.mem_cons.mp hc with hc | hc
      · exact (hc ▸ h.1 ▸ List.mem_cons_self x xs)
      · exact List.mem_cons_of_mem x (ih h.2 c hc)

theorem mem_of_hasSubL {hay needle : List Char}
    (h : hasSubL hay needle = true) : ∀ c ∈ needle, c ∈ hay := by
  induction hay with
  | nil =>
    intro c hc
    simp [hasSubL, List.isEmpty_iff] at h
    simp [h] at hc
  | cons x xs ih =>
    simp only [hasSubL, Bool.or_eq_true] at h
    intro c hc
    rcases h with h | h
    · exact mem_of_startsWithL h c hc
    · exact List.mem_cons_of_mem x (ih h c hc)

theorem hasSubL_eq_false_of_bad {hay needle : List Char} (c : Char)
    (hcn : c ∈ needle) (hch : c ∉ hay) : hasSubL hay needle = false := by
  cases h : hasSubL hay needle with
  | false => rfl
  | true => exact absurd (mem_of_hasSubL h c hcn) hch

theorem endsWithL_append (xs ys : List Char) :
    endsWithL (xs ++ ys) ys = true := by
  unfold endsWithL
  rw [List.reverse_append]
  exact startsWithL_append_left ys.reverse xs.reverse

/-! ## Lemmas: digits and digit values -/

theorem digitChar_toNat (n : Nat) : (digitChar n).toNat = 48 + n % 10 := by
  have h : n % 10 < 10 := Nat.mod_lt _ (by norm_num)
  unfold digitChar
  set m := n % 10 with hm
  interval_cases m <;> rfl

theorem isDigitC_digitChar (n : Nat) : isDigitC (digitChar n) = true := by
  have h : n % 10 < 10 := Nat.mod_lt _ (by norm_num)
  unfold digitChar
  set m := n % 10 with hm
  interval_cases m <;> rfl

theorem natDigitsAux_all_digits (fuel n : Nat) :
    ∀ c ∈ natDigitsAux fuel n, isDigitC c = true := by
  induction fuel generalizing n with
  | zero => intro c hc; cases hc
  | succ fuel ih =>
    intro c hc
    unfold natDigitsAux at hc
    by_cases h0 : n = 0
    · simp [h0] at hc
    · simp only [h0, if_false, List.mem_append, List.mem_singleton] at hc
      rcases hc with hc | hc
      · exact ih _ c hc
      · exact hc ▸ isDigitC_digitChar _

theorem natDigits_all_digits (n : Nat) :
    ∀ c ∈ natDigits n, isDigitC c = true := by
  unfold natDigits
  by_cases h0 : n = 0
  · simp [h0]; rfl
  · simp only [h0, if_false]
    exact natDigitsAux_all_digits n n

theorem natDigitsAux_ne_nil (fuel n : Nat) (hn : n ≠ 0) (hf : n ≤ fuel) :
    natDigitsAux fuel n ≠ [] := by
  cases fuel with
  | zero => omega
  | succ fuel =>
    unfold natDigitsAux
    simp [hn]

theorem natDigits_ne_nil (n : Nat) : natDigits n ≠ [] := by
  unfold natDigits
  by_cases h0 : n = 0
  · simp [h0]
  · simp only [h0, if_false]
    exact natDigitsAux_ne_nil n n h0 le_rfl

theorem foldl_dstep_natDigitsAux (fuel : Nat) :
    ∀ n a, n ≤ fuel →
      List.foldl dstep a (natDigitsAux fuel n) =
        a * 10 ^ (natDigitsAux fuel n).length + n := by
  induction fuel with
  | zero =>
    intro n a hn
    have : n = 0 := Nat.le_zero.mp hn
    simp [this, natDigitsAux]
  | succ fuel ih =>
    intro n a hn
    by_cases h0 : n = 0
    · simp [h0, natDigitsAux]
    · have hrec : n / 10 ≤ fuel := by omega
      unfold natDigitsAux
      simp only [h0, if_false]
      rw [List.foldl_append, ih (n / 10) a hrec]
      simp only [List.foldl_cons, List.foldl_nil, dstep, digitChar_toNat]
      rw [List.length_append]
      simp only [List.length_cons, List.length_nil, pow_succ, ← mul_assoc]
      set t := a * 10 ^ (natDigitsAux fuel (n / 10)).length with ht
      omega

theorem digitsVal_natDigits (n : Nat) : digitsVal (natDigits n) = n := by
  unfold natDigits digitsVal
  by_cases h0 : n = 0
  · simp [h0, dstep]
  · simp only [h0, if_false]
    have := foldl_dstep_natDigitsAux n n 0 le_rfl
    simpa using this

/-! ## Lemmas: takeWhile, dropWhile and filter on rendered strings -/

theorem takeWhile_all {p : Char → Bool} :
    ∀ xs : List Char, (∀ c ∈ xs, p c = true) → List.takeWhile p xs = xs := by
  intro xs h
  induction xs with
  | nil => rfl
  | cons c cs ih =>
    rw [List.takeWhile_cons, h c (List.mem_cons_self c cs)]
    simp only [if_true]
    rw [ih fun x hx => h x (List.mem_cons_of_mem c hx)]

theorem dropWhile_all {p : Char → Bool} :
    ∀ xs : List Char, (∀ c ∈ xs, p c = true) → List.dropWhile p xs = [] := by
  intro xs h
  induction xs with
  | nil => rfl
  | cons c cs ih =>
    rw [List.dropWhile_cons, h c (List.mem_cons_self c cs)]
    simp only [if_true]
    exact ih fun x hx => h x (List.mem_cons_of_mem c hx)

theorem takeWhile_append_stop {p : Char → Bool} (xs : List Char) (y : Char)
    (ys : List Char) (hxs : ∀ c ∈ xs, p c = true) (hy : p y = false) :
    List.takeWhile p (xs ++ y :: ys) = xs := by
  induction xs with
  | nil => simp [List.takeWhile_cons, hy]
  | cons c cs ih =>
    rw [List.cons_append, List.takeWhile_cons, hxs c (List.mem_cons_self c cs)]
    simp only [if_true]
    rw [ih fun x hx => hxs x (List.mem_cons_of_mem c hx)]

theorem dropWhile_append_stop {p : Char → Bool} (xs : List Char) (y : Char)
    (ys : List Char) (hxs : ∀ c ∈ xs, p c = true) (hy : p y = false) :
    List.dropWhile p (xs ++ y :: ys) = y :: ys := by
  induction xs with
  | nil => simp [List.dropWhile_cons, hy]
  | cons c cs ih =>
    rw [List.cons_append, List.dropWhile_cons, hxs c (List.mem_cons_self c cs)]
    simp only [if_true]
    exact ih fun x hx => hxs x (List.mem_cons_of_mem c hx)

theorem keepC_of_isDigitC {c : Char} (h : isDigitC c = true) :
    keepC c = true := by
  unfold keepC
  rw [h]
  rfl

theorem filter_keepC_digits (xs : List Char)
    (h : ∀ c ∈ xs, isDigitC c = true) : xs.filter keepC = xs :=
  List.filter_eq_self.mpr fun c hc => keepC_of_isDigitC (h c hc)

theorem filter_keepC_group3R (l : List Char) :
    (group3R l).filter keepC = l.filter keepC := by
  induction l using group3R.induct with
  | case1 a b c d rest ih =>
    show (a :: b :: c :: ',' :: group3R (d :: rest)).filter keepC = _
    simp only [List.filter_cons, ih]
    rfl
  | case2 l h =>
    rcases l with _ | ⟨a, _ | ⟨b, _ | ⟨c, _ | ⟨d, rest⟩⟩⟩⟩
    · rfl
    · rfl
    · rfl
    · rfl
    · exact (h a b c d rest rfl).elim

theorem filter_keepC_group3 (ds : List Char)
    (h : ∀ c ∈ ds, isDigitC c = true) : (group3 ds).filter keepC = ds := by
  unfold group3
  rw [List.filter_reverse, filter_keepC_group3R, List.filter_reverse,
    List.reverse_reverse]
  exact filter_keepC_digits ds h

theorem mem_group3R {l : List Char} {c : Char} (hc : c ∈ group3R l) :
    c = ',' ∨ c ∈ l := by
  induction l using group3R.induct with
  | case1 a b c' d rest ih =>
    have hg : group3R (a :: b :: c' :: d :: rest) =
        a :: b :: c' :: ',' :: group3R (d :: rest) := rfl
    rw [hg] at hc
    simp only [List.mem_cons] at hc ⊢
    rcases hc with h | h | h | h | h
    · exact Or.inr (Or.inl h)
    · exact Or.inr (Or.inr (Or.inl h))
    · exact Or.inr (Or.inr (Or.inr (Or.inl h)))
    · exact Or.inl h
    · rcases ih h with h' | h'
      · exact Or.inl h'
      · simp only [List.mem_cons] at h'
        rcases h' with h' | h'
        · exact Or.inr (Or.inr (Or.inr (Or.inr (Or.inl h'))))
        · exact Or.inr (Or.inr (Or.inr (Or.inr (Or.inr h'))))
  | case2 l h =>
    rcases l with _ | ⟨a, _ | ⟨b, _ | ⟨c', _ | ⟨d, rest⟩⟩⟩⟩
    · exact Or.inr hc
    · exact Or.inr hc
    · exact Or.inr hc
    · exact Or.inr hc
    · exact (h a b c' d rest rfl).elim

theorem mem_group3 {ds : List Char} {c : Char} (hc : c ∈ group3 ds) :
    c = ',' ∨ c ∈ ds := by
  unfold group3 at hc
  rw [List.mem_reverse] at hc
  rcases mem_group3R hc with h | h
  · exact Or.inl h
  · exact Or.inr (List.mem_reverse.mp h)

/-! ## Lemmas: parsing back rendered numbers -/

theorem parseUnsigned_digits (x : Nat) :
    parseUnsigned (natDigits x) = some (x : ℚ) := by
  unfold parseUnsigned
  rw [takeWhile_all _ (natDigits_all_digits x),
    dropWhile_all _ (natDigits_all_digits x)]
  simp
  exact ⟨natDigits_ne_nil x, by rw [digitsVal_natDigits]; simp [digitsVal]⟩

theorem parseUnsigned_digits_frac (x : Nat) (fp : List Char)
    (hfp : ∀ c ∈ fp, isDigitC c = true) :
    parseUnsigned (natDigits x ++ '.' :: fp) =
      some ((x : ℚ) + (digitsVal fp : ℚ) / 10 ^ fp.length) := by
  unfold parseUnsigned
  rw [takeWhile_append_stop _ _ _ (natDigits_all_digits x) (by decide),
    dropWhile_append_stop _ _ _ (natDigits_all_digits x) (by decide)]
  dsimp only
  rw [if_pos rfl, takeWhile_all _ hfp, digitsVal_natDigits, if_neg]
  rintro ⟨hnil, -⟩
  exact natDigits_ne_nil x hnil

theorem parseFloat_of_digit_head (c : Char) (cs : List Char)
    (h : isDigitC c = true) : parseFloat (c :: cs) = parseUnsigned (c :: cs) := by
  have h1 : c ≠ '-' := fun he => by rw [he] at h; cases h
  have h2 : c ≠ '+' := fun he => by rw [he] at h; cases h
  simp [parseFloat, h1, h2]

theorem parseFloat_digits_front (x : Nat) (rest : List Char) :
    parseFloat (natDigits x ++ rest) = parseUnsigned (natDigits x ++ rest) := by
  obtain ⟨c, cs, hcc⟩ := List.exists_cons_of_ne_nil (natDigits_ne_nil x)
  have hc : isDigitC c = true :=
    natDigits_all_digits x c (hcc ▸ List.mem_cons_self c cs)
  rw [hcc, List.cons_append]
  exact parseFloat_of_digit_head c (cs ++ rest) hc

theorem parseFloat_digits (x : Nat) :
    parseFloat (natDigits x) = some (x : ℚ) := by
  have h := parseFloat_digits_front x []
  rw [List.append_nil] at h
  rw [h, parseUnsigned_digits]

theorem parseFloat_strip_fixed2_word (n : Nat) (w : List Char)
    (hw : ∀ c ∈ w, keepC c = false) :
    parseFloat (stripNonNumeric ('$' :: (natDigits (n / 100) ++ '.' ::
      [digitChar (n % 100 / 10), digitChar (n % 100)]) ++ w)) =
    some ((n : ℚ) / 100) := by
  have hmid : ∀ c ∈ natDigits (n / 100) ++ '.' ::
      [digitChar (n % 100 / 10), digitChar (n % 100)], keepC c = true := by
    intro c hc
    rcases List.mem_append.mp hc with hc | hc
    · exact keepC_of_isDigitC (natDigits_all_digits _ c hc)
    · rcases List.mem_cons.mp hc with hc | hc
      · rw [hc]; rfl
      · rcases List.mem_cons.mp hc with hc | hc
        · rw [hc]; exact keepC_of_isDigitC (isDigitC_digitChar _)
        · rcases List.mem_cons.mp hc with hc | hc
          · rw [hc]; exact keepC_of_isDigitC (isDigitC_digitChar _)
          · cases hc
  have hstrip : stripNonNumeric ('$' :: (natDigits (n / 100) ++ '.' ::
      [digitChar (n % 100 / 10), digitChar (n % 100)]) ++ w) =
      natDigits (n / 100) ++ '.' ::
        [digitChar (n % 100 / 10), digitChar (n % 100)] := by
    unfold stripNonNumeric
    rw [List.cons_append, List.filter_cons]
    simp only [show keepC '$' = false from rfl, if_false, List.filter_append,
      List.filter_eq_self.mpr hmid]
    rw [List.filter_eq_nil_iff.mpr fun c hc => by simp [hw c hc]]
    simp
  rw [hstrip]
  rw [parseFloat_digits_front (n / 100) _,
    parseUnsigned_digits_frac (n / 100) _ (by
      intro c hc
      rcases List.mem_cons.mp hc with hc | hc
      · exact hc ▸ isDigitC_digitChar _
      · rcases List.mem_cons.mp hc with hc | hc
        · exact hc ▸ isDigitC_digitChar _
        · cases hc)]
  have hval : digitsVal [digitChar (n % 100 / 10), digitChar (n % 100)] =
      n % 100 := by
    simp only [digitsVal, List.foldl_cons, List.foldl_nil, dstep,
      digitChar_toNat]
    omega
  rw [hval]
  have hn : (n : ℚ) = 100 * ((n / 100 : Nat) : ℚ) + ((n % 100 : Nat) : ℚ) := by
    exact_mod_cast (Nat.div_add_mod n 100).symm
  congr 1
  rw [show (10:ℚ) ^ (([digitChar (n % 100 / 10), digitChar (n % 100)] :
    List Char).length) = 100 by norm_num]
  rw [hn]
  ring

theorem fracDigits_all_digits (f : Nat) :
    ∀ c ∈ fracDigits f, isDigitC c = true := by
  unfold fracDigits
  intro c hc
  split at hc <;> [skip; split at hc] <;>
    simp only [List.mem_cons, List.mem_singleton] at hc <;>
    rcases hc with hc | hc | hc | hc <;>
    first
      | exact hc ▸ isDigitC_digitChar _
      | cases hc

theorem fracDigits_val (f : Nat) (h1 : 0 < f) (h2 : f < 1000) :
    (digitsVal (fracDigits f) : ℚ) / 10 ^ (fracDigits f).length =
      (f : ℚ) / 1000 := by
  unfold fracDigits
  by_cases hc100 : f % 100 = 0
  · simp only [hc100, if_true]
    have hv : digitsVal [digitChar (f / 100)] = f / 100 := by
      simp only [digitsVal, List.foldl_cons, List.foldl_nil, dstep,
        digitChar_toNat]
      omega
    have hf : (f : ℚ) = 100 * ((f / 100 : Nat) : ℚ) := by
      have h := Nat.div_mul_cancel (Nat.dvd_of_mod_eq_zero hc100)
      calc (f : ℚ) = ((f / 100 * 100 : Nat) : ℚ) := by rw [h]
        _ = 100 * ((f / 100 : Nat) : ℚ) := by push_cast; ring
    rw [hv, show ((([digitChar (f / 100)] : List Char)).length) = 1 from rfl,
      hf]
    ring
  · simp only [hc100, if_false]
    by_cases hc10 : f % 10 = 0
    · simp only [hc10, if_true]
      have hv : digitsVal [digitChar (f / 100), digitChar (f / 10)] =
          f / 10 := by
        simp only [digitsVal, List.foldl_cons, List.foldl_nil, dstep,
          digitChar_toNat]
        omega
      have hf : (f : ℚ) = 10 * ((f / 10 : Nat) : ℚ) := by
        have h := Nat.div_mul_cancel (Nat.dvd_of_mod_eq_zero hc10)
        calc (f : ℚ) = ((f / 10 * 10 : Nat) : ℚ) := by rw [h]
          _ = 10 * ((f / 10 : Nat) : ℚ) := by push_cast; ring
      rw [hv, show ((([digitChar (f / 100), digitChar (f / 10)] :
        List Char)).length) = 2 from rfl, hf]
      ring
    · simp only [hc10, if_false]
      have hv : digitsVal [digitChar (f / 100), digitChar (f / 10),
          digitChar f] = f := by
        simp only [digitsVal, List.foldl_cons, List.foldl_nil, dstep,
          digitChar_toNat]
        omega
      rw [hv, show ((([digitChar (f / 100), digitChar (f / 10),
        digitChar f] : List Char)).length) = 3 from rfl]
      norm_num

theorem parseFloat_strip_locale (m : Nat) :
    parseFloat (stripNonNumeric ('$' :: (group3 (natDigits (m / 1000)) ++
      (if m % 1000 = 0 then [] else '.' :: fracDigits (m % 1000))))) =
    some ((m : ℚ) / 1000) := by
  have hgrp := filter_keepC_group3 (natDigits (m / 1000))
    (natDigits_all_digits (m / 1000))
  have hm : (m : ℚ) = 1000 * ((m / 1000 : Nat) : ℚ) + ((m % 1000 : Nat) : ℚ) := by
    exact_mod_cast (Nat.div_add_mod m 1000).symm
  by_cases h0 : m % 1000 = 0
  · simp only [h0, if_true, List.append_nil]
    have hstrip : stripNonNumeric ('$' :: group3 (natDigits (m / 1000))) =
        natDigits (m / 1000) := by
      unfold stripNonNumeric
      rw [List.filter_cons]
      simp only [show keepC '$' = false from rfl, if_false]
      exact hgrp
    rw [hstrip, parseFloat_digits]
    congr 1
    rw [hm, h0]
    push_cast
    ring
  · simp only [h0, if_false]
    have hstrip : stripNonNumeric ('$' :: (group3 (natDigits (m / 1000)) ++
        '.' :: fracDigits (m % 1000))) =
        natDigits (m / 1000) ++ '.' :: fracDigits (m % 1000) := by
      unfold stripNonNumeric
      rw [List.filter_cons]
      simp only [show keepC '$' = false from rfl, Bool.false_eq_true,
        if_false, List.filter_append]
      rw [hgrp, List.filter_cons]
      simp only [show keepC '.' = true from rfl, if_true]
      rw [filter_keepC_digits _ (fracDigits_all_digits (m % 1000))]
    rw [hstrip, parseFloat_digits_front,
      parseUnsigned_digits_frac _ _ (fracDigits_all_digits (m % 1000)),
      fracDigits_val (m % 1000) (Nat.pos_of_ne_zero h0)
        (Nat.mod_lt m (by norm_num))]
    congr 1
    rw [hm]
    ring

/-! ## Lemmas: rounding bounds -/

theorem round_nonneg_of_nonneg {q : ℚ} (h : 0 ≤ q) : (0 : ℤ) ≤ round q := by
  rw [round_eq]
  exact Int.le_floor.mpr (by push_cast; linarith)

theorem round_toNat_cast {q : ℚ} (h : 0 ≤ q) :
    (((round q).toNat : Nat) : ℚ) = ((round q : ℤ) : ℚ) := by
  exact_mod_cast congrArg (fun z : ℤ => (z : ℚ))
    (Int.toNat_of_nonneg (round_nonneg_of_nonneg h))

theorem fixed2_roundtrip_bound (v S : ℚ) (hS : 0 < S) (hvS : S ≤ v) :
    |((round (v / S * 100)).toNat : ℚ) / 100 * S - v| ≤ v / 100 := by
  have hv : 0 < v := lt_of_lt_of_le hS hvS
  have hx0 : (0 : ℚ) ≤ v / S * 100 := by positivity
  rw [round_toNat_cast hx0]
  set x := v / S * 100 with hxdef
  have habs : |x - (round x : ℚ)| ≤ 1 / 2 := abs_sub_round x
  have hvx : ((round x : ℤ) : ℚ) / 100 * S - v = ((round x : ℚ) - x) * (S / 100) := by
    rw [hxdef]
    field_simp
    ring
  rw [hvx, abs_mul, abs_of_pos (by positivity : (0 : ℚ) < S / 100),
    abs_sub_comm]
  calc |x - (round x : ℚ)| * (S / 100) ≤ (1 / 2) * (S / 100) := by
        exact mul_le_mul_of_nonneg_right habs (by positivity)
    _ ≤ v / 100 := by linarith

theorem locale_roundtrip_bound (v : ℚ) (hv : 1 / 20 ≤ v) :
    |((round (v * 1000)).toNat : ℚ) / 1000 - v| ≤ v / 100 := by
  have hx0 : (0 : ℚ) ≤ v * 1000 := by linarith
  rw [round_toNat_cast hx0]
  set x := v * 1000 with hxdef
  have habs : |x - (round x : ℚ)| ≤ 1 / 2 := abs_sub_round x
  have hvx : ((round x : ℤ) : ℚ) / 1000 - v = ((round x : ℚ) - x) * (1 / 1000) := by
    rw [hxdef]
    ring
  rw [hvx, abs_mul, abs_of_pos (by norm_num : (0 : ℚ) < 1 / 1000),
    abs_sub_comm]
  calc |x - (round x : ℚ)| * (1 / 1000) ≤ (1 / 2) * (1 / 1000) := by
        exact mul_le_mul_of_nonneg_right habs (by norm_num)
    _ ≤ v / 100 := by linarith

/-! ## Lemmas: branches of the canonicalization functions -/

theorem fixed2Chars_eq (q : ℚ) :
    fixed2Chars q =
      natDigits ((round (q * 100)).toNat / 100) ++ '.' ::
        [digitChar ((round (q * 100)).toNat % 100 / 10),
         digitChar ((round (q * 100)).toNat % 100)] := rfl

theorem localeChars_eq (q : ℚ) :
    localeChars q =
      group3 (natDigits ((round (q * 1000)).toNat / 1000)) ++
        (if (round (q * 1000)).toNat % 1000 = 0 then []
         else '.' :: fracDigits ((round (q * 1000)).toNat % 1000)) := rfl

theorem toFixed2_nonneg {q : ℚ} (h : 0 ≤ q) : toFixed2 q = fixed2Chars q := by
  unfold toFixed2
  rw [if_neg (not_lt.mpr h)]

theorem toLocaleStr_nonneg {q : ℚ} (h : 0 ≤ q) :
    toLocaleStr q = localeChars q := by
  unfold toLocaleStr
  rw [if_neg (not_lt.mpr h)]

theorem marketCapNumToText_trillion (v : ℚ) (h : 10 ^ 12 ≤ v) :
    marketCapNumToText v =
      String.mk ('$' :: toFixed2 (v / 10 ^ 12) ++ " trillion".data) := by
  unfold marketCapNumToText
  rw [if_pos h]

theorem marketCapNumToText_billion (v : ℚ) (h1 : ¬10 ^ 12 ≤ v)
    (h2 : 10 ^ 9 ≤ v) :
    marketCapNumToText v =
      String.mk ('$' :: toFixed2 (v / 10 ^ 9) ++ " billion".data) := by
  unfold marketCapNumToText
  rw [if_neg h1, if_pos h2]

theorem marketCapNumToText_million (v : ℚ) (h1 : ¬10 ^ 12 ≤ v)
    (h2 : ¬10 ^ 9 ≤ v) (h3 : 10 ^ 6 ≤ v) :
    marketCapNumToText v =
      String.mk ('$' :: toFixed2 (v / 10 ^ 6) ++ " million".data) := by
  unfold marketCapNumToText
  rw [if_neg h1, if_neg h2, if_pos h3]

theorem marketCapNumToText_plain (v : ℚ) (h : v < 10 ^ 6) :
    marketCapNumToText v = String.mk ('$' :: toLocaleStr v) := by
  have h6 : ¬10 ^ 6 ≤ v := not_le.mpr h
  have h9 : ¬10 ^ 9 ≤ v := fun hc => h6 (le_trans (by norm_num) hc)
  have h12 : ¬10 ^ 12 ≤ v := fun hc => h6 (le_trans (by norm_num) hc)
  unfold marketCapNumToText
  rw [if_neg h12, if_neg h9, if_neg h6]

/-! ## Lemmas: which scale branch fires on a rendered string -/

theorem mem_fixed2_hay {c : Char} (q : ℚ) (w : List Char)
    (hc : c ∈ '$' :: fixed2Chars q ++ w) :
    isDigitC c = true ∨ c = '$' ∨ c = '.' ∨ c ∈ w := by
  rcases List.mem_cons.mp hc with h | h
  · exact Or.inr (Or.inl h)
  rcases List.mem_append.mp h with h | h
  · rw [fixed2Chars_eq] at h
    rcases List.mem_append.mp h with h | h
    · exact Or.inl (natDigits_all_digits _ c h)
    · rcases List.mem_cons.mp h with h | h
      · exact Or.inr (Or.inr (Or.inl h))
      · rcases List.mem_cons.mp h with h | h
        · exact Or.inl (h ▸ isDigitC_digitChar _)
        · rcases List.mem_cons.mp h with h | h
          · exact Or.inl (h ▸ isDigitC_digitChar _)
          · cases h
  · exact Or.inr (Or.inr (Or.inr h))

theorem mem_locale_hay {c : Char} (q : ℚ) (hc : c ∈ '$' :: localeChars q) :
    isDigitC c = true ∨ c = '$' ∨ c = ',' ∨ c = '.' := by
  rcases List.mem_cons.mp hc with h | h
  · exact Or.inr (Or.inl h)
  rw [localeChars_eq] at h
  rcases List.mem_append.mp h with h | h
  · rcases mem_group3 h with h | h
    · exact Or.inr (Or.inr (Or.inl h))
    · exact Or.inl (natDigits_all_digits _ c h)
  · split at h
    · cases h
    · rcases List.mem_cons.mp h with h | h
      · exact Or.inr (Or.inr (Or.inr h))
      · exact Or.inl (fracDigits_all_digits _ c h)

theorem hasSubL_fixed2_false (q : ℚ) (w needle : List Char) (c : Char)
    (hcn : c ∈ needle) (hdig : isDigitC c = false) (h1 : c ≠ '$')
    (h2 : c ≠ '.') (hw : c ∉ w) :
    hasSubL ('$' :: fixed2Chars q ++ w) needle = false := by
  refine hasSubL_eq_false_of_bad c hcn ?_
  intro hmem
  rcases mem_fixed2_hay q w hmem with h | h | h | h
  · simp [h] at hdig
  · exact h1 h
  · exact h2 h
  · exact hw h

theorem hasSubL_locale_false (q : ℚ) (needle : List Char) (c : Char)
    (hcn : c ∈ needle) (hdig : isDigitC c = false) (h1 : c ≠ '$')
    (h2 : c ≠ ',') (h3 : c ≠ '.') :
    hasSubL ('$' :: localeChars q) needle = false := by
  refine hasSubL_eq_false_of_bad c hcn ?_
  intro hmem
  rcases mem_locale_hay q hmem with h | h | h | h
  · simp [h] at hdig
  · exact h1 h
  · exact h2 h
  · exact h3 h

theorem hasSubL_fixed2_word (q : ℚ) (word : List Char) :
    hasSubL ('$' :: fixed2Chars q ++ (' ' :: word)) word = true := by
  have hre : '$' :: fixed2Chars q ++ (' ' :: word) =
      (('$' :: fixed2Chars q) ++ [' ']) ++ word := by simp
  rw [hre]
  exact hasSubL_append_right _ word

theorem textToNum_trillion_str (q : ℚ) :
    marketCapTextToNum (String.mk ('$' :: fixed2Chars q ++ " trillion".data)) =
      some (((round (q * 100)).toNat : ℚ) / 100 * 10 ^ 12) := by
  have htr : hasSubL ('$' :: fixed2Chars q ++ " trillion".data)
      "trillion".data = true := by
    rw [show " trillion".data = ' ' :: "trillion".data from rfl]
    exact hasSubL_fixed2_word q "trillion".data
  unfold marketCapTextToNum strIncludes
  rw [show (String.mk ('$' :: fixed2Chars q ++ " trillion".data)).data =
    '$' :: fixed2Chars q ++ " trillion".data from rfl]
  rw [htr]
  simp only [Bool.true_or, if_true]
  rw [fixed2Chars_eq, parseFloat_strip_fixed2_word _ _ (by decide)]
  rfl

theorem textToNum_billion_str (q : ℚ) :
    marketCapTextToNum (String.mk ('$' :: fixed2Chars q ++ " billion".data)) =
      some (((round (q * 100)).toNat : ℚ) / 100 * 10 ^ 9) := by
  have h1 : hasSubL ('$' :: fixed2Chars q ++ " billion".data)
      "trillion".data = false :=
    hasSubL_fixed2_false q _ _ 't' (by decide) (by decide) (by decide)
      (by decide) (by decide)
  have h2 : hasSubL ('$' :: fixed2Chars q ++ " billion".data)
      "T".data = false :=
    hasSubL_fixed2_false q _ _ 'T' (by decide) (by decide) (by decide)
      (by decide) (by decide)
  have h3 : hasSubL ('$' :: fixed2Chars q ++ " billion".data)
      "million".data = false :=
    hasSubL_fixed2_false q _ _ 'm' (by decide) (by decide) (by decide)
      (by decide) (by decide)
  have h4 : hasSubL ('$' :: fixed2Chars q ++ " billion".data)
      "M".data = false :=
    hasSubL_fixed2_false q _ _ 'M' (by decide) (by decide) (by decide)
      (by decide) (by decide)
  have h5 : hasSubL ('$' :: fixed2Chars q ++ " billion".data)
      "billion".data = true := by
    rw [show " billion".data = ' ' :: "billion".data from rfl]
    exact hasSubL_fixed2_word q "billion".data
  unfold marketCapTextToNum strIncludes
  rw [show (String.mk ('$' :: fixed2Chars q ++ " billion".data)).data =
    '$' :: fixed2Chars q ++ " billion".data from rfl]
  rw [h1, h2, h3, h4, h5]
  simp only [Bool.or_self, Bool.false_or, Bool.true_or, if_false, if_true,
    Bool.false_eq_true]
  rw [fixed2Chars_eq, parseFloat_strip_fixed2_word _ _ (by decide)]
  rfl

theorem textToNum_million_str (q : ℚ) :
    marketCapTextToNum (String.mk ('$' :: fixed2Chars q ++ " million".data)) =
      some (((round (q * 100)).toNat : ℚ) / 100 * 10 ^ 6) := by
  have h1 : hasSubL ('$' :: fixed2Chars q ++ " million".data)
      "trillion".data = false :=
    hasSubL_fixed2_false q _ _ 't' (by decide) (by decide) (by decide)
      (by decide) (by decide)
  have h2 : hasSubL ('$' :: fixed2Chars q ++ " million".data)
      "T".data = false :=
    hasSubL_fixed2_false q _ _ 'T' (by decide) (by decide) (by decide)
      (by decide) (by decide)
  have h3 : hasSubL ('$' :: fixed2Chars q ++ " million".data)
      "million".data = true := by
    rw [show " million".data = ' ' :: "million".data from rfl]
    exact hasSubL_fixed2_word q "million".data
  unfold marketCapTextToNum strIncludes
  rw [show (String.mk ('$' :: fixed2Chars q ++ " million".data)).data =
    '$' :: fixed2Chars q ++ " million".data from rfl]
  rw [h1, h2, h3]
  simp only [Bool.or_self, Bool.false_or, Bool.true_or, if_false, if_true,
    Bool.false_eq_true]
  rw [fixed2Chars_eq, parseFloat_strip_fixed2_word _ _ (by decide)]
  rfl

theorem textToNum_plain_str (q : ℚ) :
    marketCapTextToNum (String.mk ('$' :: localeChars q)) =
      some (((round (q * 1000)).toNat : ℚ) / 1000) := by
  have h1 : hasSubL ('$' :: localeChars q) "trillion".data = false :=
    hasSubL_locale_false q _ 't' (by decide) (by decide) (by decide)
      (by decide) (by decide)
  have h2 : hasSubL ('$' :: localeChars q) "T".data = false :=
    hasSubL_locale_false q _ 'T' (by decide) (by decide) (by decide)
      (by decide) (by decide)
  have h3 : hasSubL ('$' :: localeChars q) "million".data = false :=
    hasSubL_locale_false q _ 'm' (by decide) (by decide) (by decide)
      (by decide) (by decide)
  have h4 : hasSubL ('$' :: localeChars q) "M".data = false :=
    hasSubL_locale_false q _ 'M' (by decide) (by decide) (by decide)
      (by decide) (by decide)
  have h5 : hasSubL ('$' :: localeChars q) "billion".data = false :=
    hasSubL_locale_false q _ 'b' (by decide) (by decide) (by decide)
      (by decide) (by decide)
  have h6 : hasSubL ('$' :: localeChars q) "B".data = false :=
    hasSubL_locale_false q _ 'B' (by decide) (by decide) (by decide)
      (by decide) (by decide)
  unfold marketCapTextToNum strIncludes
  rw [show (String.mk ('$' :: localeChars q)).data =
    '$' :: localeChars q from rfl]
  rw [h1, h2, h3, h4, h5, h6]
  simp only [Bool.or_self, if_false, Bool.false_eq_true]
  rw [localeChars_eq, parseFloat_strip_locale]

theorem roundTrip_trillion (v : ℚ) (h : 10 ^ 12 ≤ v) :
    marketCapTextToNum (marketCapNumToText v) =
      some (((round (v / 10 ^ 12 * 100)).toNat : ℚ) / 100 * 10 ^ 12) := by
  have hv : (0 : ℚ) ≤ v := le_trans (by norm_num) h
  have h0 : (0 : ℚ) ≤ v / 10 ^ 12 := div_nonneg hv (by norm_num)
  rw [marketCapNumToText_trillion v h, toFixed2_nonneg h0,
    textToNum_trillion_str]

theorem roundTrip_billion (v : ℚ) (h1 : ¬10 ^ 12 ≤ v) (h2 : 10 ^ 9 ≤ v) :
    marketCapTextToNum (marketCapNumToText v) =
      some (((round (v / 10 ^ 9 * 100)).toNat : ℚ) / 100 * 10 ^ 9) := by
  have hv : (0 : ℚ) ≤ v := le_trans (by norm_num) h2
  have h0 : (0 : ℚ) ≤ v / 10 ^ 9 := div_nonneg hv (by norm_num)
  rw [marketCapNumToText_billion v h1 h2, toFixed2_nonneg h0,
    textToNum_billion_str]

theorem roundTrip_million (v : ℚ) (h1 : ¬10 ^ 12 ≤ v) (h2 : ¬10 ^ 9 ≤ v)
    (h3 : 10 ^ 6 ≤ v) :
    marketCapTextToNum (marketCapNumToText v) =
      some (((round (v / 10 ^ 6 * 100)).toNat : ℚ) / 100 * 10 ^ 6) := by
  have hv : (0 : ℚ) ≤ v := le_trans (by norm_num) h3
  have h0 : (0 : ℚ) ≤ v / 10 ^ 6 := div_nonneg hv (by norm_num)
  rw [marketCapNumToText_million v h1 h2 h3, toFixed2_nonneg h0,
    textToNum_million_str]

theorem roundTrip_plain (v : ℚ) (h0 : 0 ≤ v) (h : v < 10 ^ 6) :
    marketCapTextToNum (marketCapNumToText v) =
      some (((round (v * 1000)).toNat : ℚ) / 1000) := by
  rw [marketCapNumToText_plain v h, toLocaleStr_nonneg h0,
    textToNum_plain_str]

/-! ## Lemmas: the cache layer -/

theorem mapGet_mapSet_self {α : Type} (c : Cache α) (k : String)
    (v : CacheEntry α) : mapGet (mapSet c k v) k = some v := by
  induction c with
  | nil => simp [mapSet, mapGet]
  | cons kv rest ih =>
    obtain ⟨k', v'⟩ := kv
    by_cases h : k' = k
    · simp [mapSet, h, mapGet]
    · simp [mapSet, h, mapGet, ih]

theorem mapGet_mapSet_ne {α : Type} (c : Cache α) (k k' : String)
    (v : CacheEntry α) (h : k' ≠ k) :
    mapGet (mapSet c k v) k' = mapGet c k' := by
  induction c with
  | nil => simp [mapSet, mapGet, Ne.symm h]
  | cons kv rest ih =>
    obtain ⟨k0, v0⟩ := kv
    by_cases hk : k0 = k
    · subst hk
      simp [mapSet, mapGet, Ne.symm h]
    · simp [mapSet, hk, mapGet, ih]

theorem getCachedData_hit {α : Type} {cache : Cache α} {key : String}
    {e : CacheEntry α} {now : ℤ} {iso : String} {p : Except String α}
    (he : mapGet cache key = some e)
    (hfresh : now - e.timestamp < CACHE_DURATION) :
    getCachedData cache now iso key p = (Except.ok e.data, cache, 0) := by
  unfold getCachedData
  rw [he]
  simp [hfresh]

theorem getCachedData_stale {α : Type} {cache : Cache α} {key : String}
    {e : CacheEntry α} {now : ℤ} {iso : String} {p : Except String α}
    (he : mapGet cache key = some e)
    (hstale : ¬now - e.timestamp < CACHE_DURATION) :
    getCachedData cache now iso key p = fetchFresh cache now iso key p := by
  unfold getCachedData
  rw [he]
  simp [hstale]

theorem getCachedData_cold {α : Type} {cache : Cache α} {key : String}
    {now : ℤ} {iso : String} {p : Except String α}
    (hn : mapGet cache key = none) :
    getCachedData cache now iso key p = fetchFresh cache now iso key p := by
  unfold getCachedData
  rw [hn]

theorem getCachedData_error_cache {α : Type} (cache : Cache α) (now : ℤ)
    (iso key e : String) :
    (getCachedData cache now iso key (Except.error e)).2.1 = cache := by
  rcases hm : mapGet cache key with _ | e'
  · rw [getCachedData_cold hm]; rfl
  · by_cases hf : now - e'.timestamp < CACHE_DURATION
    · rw [getCachedData_hit hm hf]
    · rw [getCachedData_stale hm hf]; rfl

theorem getCachedData_count_le_one {α : Type} (cache : Cache α) (now : ℤ)
    (iso key : String) (p : Except String α) :
    (getCachedData cache now iso key p).2.2 ≤ 1 := by
  rcases hm : mapGet cache key with _ | e'
  · rw [getCachedData_cold hm]
    cases p <;> simp [fetchFresh]
  · by_cases hf : now - e'.timestamp < CACHE_DURATION
    · rw [getCachedData_hit hm hf]
      simp
    · rw [getCachedData_stale hm hf]
      cases p <;> simp [fetchFresh]

theorem getCachedData_ok_entry {α : Type} {cache : Cache α} {now : ℤ}
    {iso key : String} {a : α} {env : Envelope α} {c' : Cache α} {n : Nat}
    (h : getCachedData cache now iso key (Except.ok a) =
      (Except.ok env, c', n)) :
    ∃ entry : CacheEntry α, mapGet c' key = some entry ∧ entry.data = env := by
  rcases hm : mapGet cache key with _ | e
  · rw [getCachedData_cold hm] at h
    unfold fetchFresh at h
    simp only [Prod.mk.injEq, Except.ok.injEq] at h
    obtain ⟨henv, hc, -⟩ := h
    refine ⟨⟨⟨"success", iso, a⟩, now⟩, ?_, henv⟩
    rw [← hc]
    exact mapGet_mapSet_self cache key _
  · by_cases hf : now - e.timestamp < CACHE_DURATION
    · rw [getCachedData_hit hm hf] at h
      simp only [Prod.mk.injEq, Except.ok.injEq] at h
      obtain ⟨henv, hc, -⟩ := h
      exact ⟨e, hc ▸ hm, henv⟩
    · rw [getCachedData_stale hm hf] at h
      unfold fetchFresh at h
      simp only [Prod.mk.injEq, Except.ok.injEq] at h
      obtain ⟨henv, hc, -⟩ := h
      refine ⟨⟨⟨"success", iso, a⟩, now⟩, ?_, henv⟩
      rw [← hc]
      exact mapGet_mapSet_self cache key _

theorem mapGet_eq_none_of_not_mem {α : Type} {c : Cache α} {k : String}
    (h : k ∉ cacheKeys c) : mapGet c k = none := by
  induction c with
  | nil => rfl
  | cons kv rest ih =>
    obtain ⟨k', v⟩ := kv
    have hk : k' ≠ k := fun he => h (by simp [cacheKeys, he])
    simp only [mapGet, hk, if_false]
    exact ih fun hm => h (by simp [cacheKeys] at hm ⊢; exact Or.inr hm)

theorem mapGet_filter_pos {α : Type} {c : Cache α} {k : String}
    {e : CacheEntry α} {p : String × CacheEntry α → Bool}
    (hnd : (cacheKeys c).Nodup) (h : mapGet c k = some e)
    (hp : p (k, e) = true) : mapGet (c.filter p) k = some e := by
  induction c with
  | nil => cases h
  | cons kv rest ih =>
    obtain ⟨k', v⟩ := kv
    have hnd' : (cacheKeys rest).Nodup := (List.nodup_cons.mp hnd).2
    by_cases hk : k' = k
    · subst hk
      simp [mapGet] at h
      subst h
      rw [List.filter_cons, hp]
      simp [mapGet]
    · simp only [mapGet, hk, if_false] at h
      rw [List.filter_cons]
      cases hpv : p (k', v) with
      | true =>
        simp only [if_pos rfl, mapGet, hk, if_false]
        exact ih hnd' h
      | false =>
        simp only [Bool.false_eq_true, if_false]
        exact ih hnd' h

theorem mapGet_filter_neg {α : Type} {c : Cache α} {k : String}
    {e : CacheEntry α} {p : String × CacheEntry α → Bool}
    (hnd : (cacheKeys c).Nodup) (h : mapGet c k = some e)
    (hp : p (k, e) = false) : mapGet (c.filter p) k = none := by
  induction c with
  | nil => cases h
  | cons kv rest ih =>
    obtain ⟨k', v⟩ := kv
    have hmem : k' ∉ cacheKeys rest := (List.nodup_cons.mp hnd).1
    have hnd' : (cacheKeys rest).Nodup := (List.nodup_cons.mp hnd).2
    by_cases hk : k' = k
    · subst hk
      simp [mapGet] at h
      subst h
      rw [List.filter_cons, hp]
      simp only [Bool.false_eq_true, if_false]
      refine mapGet_eq_none_of_not_mem fun hm => hmem ?_
      have hsub : cacheKeys (rest.filter p) ⊆ cacheKeys rest :=
        List.Sublist.subset ((List.filter_sublist rest).map Prod.fst)
      exact hsub hm
    · simp only [mapGet, hk, if_false] at h
      rw [List.filter_cons]
      cases hpv : p (k', v) with
      | true =>
        simp only [if_pos rfl, mapGet, hk, if_false]
        exact ih hnd' h
      | false =>
        simp only [Bool.false_eq_true, if_false]
        exact ih hnd' h

theorem cleanupCache_clean {α : Type} (cache : Cache α) (now : ℤ)
    (h : ∀ kv ∈ cache, ¬now - kv.2.timestamp > 2 * CACHE_DURATION) :
    cleanupCache cache now = (cache, 0) := by
  unfold cleanupCache
  have h1 : cache.filter
      (fun kv => !decide (now - kv.2.timestamp > 2 * CACHE_DURATION)) =
      cache :=
    List.filter_eq_self.mpr fun kv hkv => by simp [h kv hkv]
  have h2 : cache.filter
      (fun kv => decide (now - kv.2.timestamp > 2 * CACHE_DURATION)) =
      [] :=
    List.filter_eq_nil_iff.mpr fun kv hkv => by simp [h kv hkv]
  rw [h1, h2]
  rfl

theorem collectRowsAux_length {β : Type} :
    ∀ (rows : List (Bool × β)) (n : Nat), n < 10 →
      (collectRowsAux rows n).length ≤ 10 - n := by
  intro rows
  induction rows with
  | nil => intro n h; simp [collectRowsAux]
  | cons r rest ih =>
    intro n h
    obtain ⟨sp, rec⟩ := r
    cases sp with
    | true =>
      simp only [collectRowsAux, if_pos rfl]
      exact ih n h
    | false =>
      by_cases h10 : n + 1 ≥ 10
      · simp only [collectRowsAux, Bool.false_eq_true, if_false, if_pos h10]
        simp
        omega
      · simp only [collectRowsAux, Bool.false_eq_true, if_false, if_neg h10,
          List.length_cons]
        have := ih (n + 1) (by omega)
        omega

/-! ## Claim theorems -/

/-- C1: Stale-fallback law — if a first call to the cache layer succeeds
(leaving an entry stored for the key) and a later call's producer fails while
that entry is still stored (at any age past the freshness window, with no
upper bound), the failing call returns the previously stored envelope
annotated with the fixed marker message "Serving cached data due to fetch
error" (HTTP 200), not an error response. -/
theorem C1_stale_fallback {β : Type} (cache : Cache (List β)) (t1 : ℤ)
    (iso1 key : String) (a : List β) (env : Envelope (List β))
    (c1 : Cache (List β)) (n1 : Nat)
    (hfirst : getCachedData cache t1 iso1 key (Except.ok a) =
      (Except.ok env, c1, n1))
    (entry : CacheEntry (List β)) (hent : mapGet c1 key = some entry)
    (t2 : ℤ) (iso2 err nf em : String)
    (hstale : ¬t2 - entry.timestamp < CACHE_DURATION) :
    entry.data = env ∧
    (listEndpoint c1 t2 iso2 key (Except.error err) nf em).1 =
      { httpStatus := 200, status := env.status, timestamp := env.timestamp,
        data := some env.data, count := none,
        message := some "Serving cached data due to fetch error",
        error := none } := by
  obtain ⟨e', he', hd⟩ := getCachedData_ok_entry hfirst
  rw [hent] at he'
  have hee : entry = e' := by injection he'
  have hde : entry.data = env := by rw [hee, hd]
  refine ⟨hde, ?_⟩
  unfold listEndpoint
  rw [getCachedData_stale hent hstale]
  simp only [fetchFresh]
  simp only [handleErrorWithCacheFallback, hent, hde]

/-- C1 witness: a concrete successful first call followed by a failing
refresh one freshness window later serves the cached envelope with the
marker. -/
theorem C1_stale_fallback_witness :
    (⟨⟨"success", "t0", [5]⟩, 0⟩ : CacheEntry (List ℕ)).data =
      ⟨"success", "t0", [5]⟩ ∧
    (listEndpoint [("k", ⟨⟨"success", "t0", [(5 : ℕ)]⟩, 0⟩)] CACHE_DURATION
      "t1" "k" (Except.error "boom") "nf" "em").1 =
      { httpStatus := 200, status := "success", timestamp := "t0",
        data := some [5], count := none,
        message := some "Serving cached data due to fetch error",
        error := none } :=
  C1_stale_fallback ([] : Cache (List ℕ)) 0 "t0" "k" [5]
    ⟨"success", "t0", [5]⟩ [("k", ⟨⟨"success", "t0", [5]⟩, 0⟩)] 1
    (by decide) ⟨⟨"success", "t0", [5]⟩, 0⟩ (by decide)
    CACHE_DURATION "t1" "boom" "nf" "em" (by decide)

/-- C3: Cold-failure law — when no entry exists for the key and the producer
fails, the endpoint returns the 500 error envelope {status "error", custom
message, current ISO timestamp, error text}, never a stale fallback, and the
cache is unchanged. -/
theorem C3_cold_failure {β : Type} (cache : Cache (List β)) (now : ℤ)
    (iso key e nf em : String) (hnone : mapGet cache key = none) :
    listEndpoint cache now iso key (Except.error e) nf em =
      ({ httpStatus := 500, status := "error", timestamp := iso, data := none,
         count := none, message := some em, error := some e }, cache, 1) := by
  unfold listEndpoint
  rw [getCachedData_cold hnone]
  simp only [fetchFresh]
  simp only [handleErrorWithCacheFallback, hnone]

/-- C3 witness: the very first call for a key with a failing producer yields
the 500 error envelope. -/
theorem C3_cold_failure_witness :
    listEndpoint ([] : Cache (List ℕ)) 0 "t0" "k" (Except.error "down")
      "nf" "em" =
      ({ httpStatus := 500, status := "error", timestamp := "t0", data := none,
         count := none, message := some "em", error := some "down" }, [], 1) :=
  C3_cold_failure [] 0 "t0" "k" "down" "nf" "em" (by decide)

/-- C4: Atomicity of the cache store on failure — with a throwing producer,
`getCachedData` leaves the cache map identical (no overwrite, no delete, no
insert), and any entry present after an arbitrary call either was already
present before it or was stored by that call's successful producer result. -/
theorem C4_atomicity {α : Type} (cache : Cache α) (now : ℤ)
    (iso key e : String) (p : Except String α) (k' : String)
    (v : CacheEntry α)
    (hv : mapGet ((getCachedData cache now iso key p).2.1) k' = some v) :
    (getCachedData cache now iso key (Except.error e)).2.1 = cache ∧
    (mapGet cache k' = some v ∨
      (k' = key ∧ p = Except.ok v.data.data ∧
        v = ⟨⟨"success", iso, v.data.data⟩, now⟩)) := by
  refine ⟨getCachedData_error_cache cache now iso key e, ?_⟩
  rcases hm : mapGet cache key with _ | e₀
  · rw [getCachedData_cold hm] at hv
    cases p with
    | error msg => exact Or.inl hv
    | ok a =>
      simp only [fetchFresh] at hv
      by_cases hk : k' = key
      · subst hk
        rw [mapGet_mapSet_self] at hv
        have hveq : v = ⟨⟨"success", iso, a⟩, now⟩ := by injection hv with h; exact h.symm
        refine Or.inr ⟨rfl, ?_, ?_⟩
        · rw [hveq]
        · rw [hveq]
      · rw [mapGet_mapSet_ne _ _ _ _ hk] at hv
        exact Or.inl hv
  · by_cases hf : now - e₀.timestamp < CACHE_DURATION
    · rw [getCachedData_hit hm hf] at hv
      exact Or.inl hv
    · rw [getCachedData_stale hm hf] at hv
      cases p with
      | error msg => exact Or.inl hv
      | ok a =>
        simp only [fetchFresh] at hv
        by_cases hk : k' = key
        · subst hk
          rw [mapGet_mapSet_self] at hv
          have hveq : v = ⟨⟨"success", iso, a⟩, now⟩ := by
            injection hv with h; exact h.symm
          refine Or.inr ⟨rfl, ?_, ?_⟩
          · rw [hveq]
          · rw [hveq]
        · rw [mapGet_mapSet_ne _ _ _ _ hk] at hv
          exact Or.inl hv

/-- C4 witness: a successful call on an empty cache stores exactly the
produced entry, and a failing call leaves the empty cache empty. -/
theorem C4_atomicity_witness :
    (getCachedData ([] : Cache ℕ) 0 "t0" "k" (Except.error "x")).2.1 = [] ∧
    (mapGet ([] : Cache ℕ) "k" = some ⟨⟨"success", "t0", 5⟩, 0⟩ ∨
      ("k" = "k" ∧ (Except.ok 5 : Except String ℕ) =
        Except.ok (⟨⟨"success", "t0", 5⟩, 0⟩ : CacheEntry ℕ).data.data ∧
        (⟨⟨"success", "t0", 5⟩, 0⟩ : CacheEntry ℕ) =
          ⟨⟨"success", "t0",
            (⟨⟨"success", "t0", 5⟩, 0⟩ : CacheEntry ℕ).data.data⟩, 0⟩)) :=
  C4_atomicity ([] : Cache ℕ) 0 "t0" "k" "x" (Except.ok 5) "k"
    ⟨⟨"success", "t0", 5⟩, 0⟩ (by decide)

/-- C5 counterexample: two sequential calls within the freshness window
(both at time 0) on a key with no entry and a failing producer each invoke
the producer once — two invocations, not at most one — so the claim's
"hence" corollary fails when the first call's producer fails. -/
theorem C5_counterexample :
    ((0 : ℤ) - 0 < CACHE_DURATION) ∧
    (getCachedData ([] : Cache ℕ) 0 "t0" "k" (Except.error "boom")).2.2 = 1 ∧
    (getCachedData
      ((getCachedData ([] : Cache ℕ) 0 "t0" "k" (Except.error "boom")).2.1)
      0 "t1" "k" (Except.error "boom")).2.2 = 1 := by
  refine ⟨by decide, by decide, by decide⟩

/-- C5 (amended): the cache-hit law holds as stated — a fresh entry is served
unchanged with no producer call — and the corollary holds provided the first
call's producer (if invoked) succeeds: two sequential calls with the same key
within the freshness window then invoke the producer at most once. -/
theorem C5_cache_hit (cache : Cache ℕ) (key : String) (t1 : ℤ)
    (iso1 : String) (a : ℕ) (t2 : ℤ) (iso2 : String) (p2 : Except String ℕ)
    (hw : t2 - t1 < CACHE_DURATION) :
    (∀ (α : Type) (c : Cache α) (now : ℤ) (iso : String)
       (p : Except String α) (entry : CacheEntry α),
      mapGet c key = some entry → now - entry.timestamp < CACHE_DURATION →
      getCachedData c now iso key p = (Except.ok entry.data, c, 0)) ∧
    (getCachedData cache t1 iso1 key (Except.ok a)).2.2 +
      (getCachedData ((getCachedData cache t1 iso1 key (Except.ok a)).2.1)
        t2 iso2 key p2).2.2 ≤ 1 := by
  constructor
  · intro α c now iso p entry hm hf
    exact getCachedData_hit hm hf
  · rcases hm : mapGet cache key with _ | e
    · rw [getCachedData_cold hm]
      simp only [fetchFresh]
      rw [getCachedData_hit (mapGet_mapSet_self cache key _) (by exact hw)]
      simp
    · by_cases hf : t1 - e.timestamp < CACHE_DURATION
      · rw [getCachedData_hit hm hf]
        simpa using getCachedData_count_le_one cache t2 iso2 key p2
      · rw [getCachedData_stale hm hf]
        simp only [fetchFresh]
        rw [getCachedData_hit (mapGet_mapSet_self cache key _) (by exact hw)]
        simp

/-- C5 witness: on an empty cache, a successful call followed by any call
within the window invokes the producer exactly once in total. -/
theorem C5_cache_hit_witness :
    (∀ (α : Type) (c : Cache α) (now : ℤ) (iso : String)
       (p : Except String α) (entry : CacheEntry α),
      mapGet c "k" = some entry → now - entry.timestamp < CACHE_DURATION →
      getCachedData c now iso "k" p = (Except.ok entry.data, c, 0)) ∧
    (getCachedData ([] : Cache ℕ) 0 "t0" "k" (Except.ok 5)).2.2 +
      (getCachedData
        ((getCachedData ([] : Cache ℕ) 0 "t0" "k" (Except.ok 5)).2.1)
        1 "t1" "k" (Except.error "boom")).2.2 ≤ 1 :=
  C5_cache_hit [] "k" 0 "t0" 5 1 "t1" (Except.error "boom") (by decide)

/-- C8 counterexample: on the stale-fallback path of a list endpoint the
served body has list-shaped `data` but no `count` field, refuting "count is
present exactly when data is list-shaped, including on the stale-fallback
path". -/
theorem C8_counterexample :
    (listEndpoint [("k", ⟨⟨"success", "t0", [(5 : ℕ)]⟩, 0⟩)] CACHE_DURATION
      "t1" "k" (Except.error "boom") "nf" "em").1.data = some [5] ∧
    (listEndpoint [("k", ⟨⟨"success", "t0", [(5 : ℕ)]⟩, 0⟩)] CACHE_DURATION
      "t1" "k" (Except.error "boom") "nf" "em").1.count = none := by
  refine ⟨by decide, by decide⟩

/-- C8 (amended): `count` is present exactly on the fresh-success responses
of list endpoints, where it equals the length of the `data` list — both
directions: whenever `count` is present the response is a fresh success with
matching length, and every fresh success with a non-empty list carries
`count = data.length`.  On the stale-fallback path the list-shaped body is
served without `count`, and the 404 and 500 error bodies carry neither
`count` nor `data`. -/
theorem C8_count_field {β : Type} (cache : Cache (List β)) (now : ℤ)
    (iso key err nf em : String) (entry : CacheEntry (List β))
    (hent : mapGet cache key = some entry)
    (hstale : ¬now - entry.timestamp < CACHE_DURATION) :
    ((listEndpoint cache now iso key (Except.error err) nf em).1.count =
        none ∧
      (listEndpoint cache now iso key (Except.error err) nf em).1.data =
        some entry.data.data) ∧
    (∀ (cache' : Cache (List β)) (now' : ℤ) (iso' key' : String)
       (p : Except String (List β)) (nf' em' : String) (n : Nat),
      (listEndpoint cache' now' iso' key' p nf' em').1.count = some n →
      ∃ l, (listEndpoint cache' now' iso' key' p nf' em').1.data = some l ∧
        n = l.length ∧
        (listEndpoint cache' now' iso' key' p nf' em').1.message = none ∧
        (listEndpoint cache' now' iso' key' p nf' em').1.httpStatus = 200) ∧
    (∀ (cache' : Cache (List β)) (now' : ℤ) (iso' key' : String)
       (p : Except String (List β)) (nf' em' : String)
       (env : Envelope (List β)) (c' : Cache (List β)) (n' : Nat),
      getCachedData cache' now' iso' key' p = (Except.ok env, c', n') →
      env.data.length ≠ 0 →
      (listEndpoint cache' now' iso' key' p nf' em').1.count =
        some env.data.length ∧
      (listEndpoint cache' now' iso' key' p nf' em').1.data =
        some env.data) ∧
    (∀ (cache' : Cache (List β)) (now' : ℤ) (iso' key' : String)
       (p : Except String (List β)) (nf' em' : String)
       (env : Envelope (List β)) (c' : Cache (List β)) (n' : Nat),
      getCachedData cache' now' iso' key' p = (Except.ok env, c', n') →
      env.data.length = 0 →
      (listEndpoint cache' now' iso' key' p nf' em').1.count = none ∧
      (listEndpoint cache' now' iso' key' p nf' em').1.data = none) ∧
    (∀ (cache' : Cache (List β)) (now' : ℤ) (iso' key' e' nf' em' : String),
      mapGet cache' key' = none →
      (listEndpoint cache' now' iso' key' (Except.error e') nf' em').1.count =
        none ∧
      (listEndpoint cache' now' iso' key' (Except.error e') nf' em').1.data =
        none) := by
  refine ⟨?_, ?_, ?_, ?_, ?_⟩
  · unfold listEndpoint
    rw [getCachedData_stale hent hstale]
    simp only [fetchFresh]
    simp only [handleErrorWithCacheFallback, hent]
    exact ⟨trivial, trivial⟩
  · intro cache' now' iso' key' p nf' em' n hcount
    unfold listEndpoint at hcount ⊢
    rcases hres : getCachedData cache' now' iso' key' p with ⟨r, c', n'⟩
    rw [hres] at hcount
    cases r with
    | ok result =>
      dsimp only at hcount ⊢
      by_cases hlen : result.data.length = 0
      · rw [if_pos hlen] at hcount
        cases hcount
      · rw [if_neg hlen] at hcount
        rw [if_neg hlen]
        have hn : n = result.data.length := by
          injection hcount with h; exact h.symm
        exact ⟨result.data, rfl, hn, rfl, rfl⟩
    | error e =>
      exfalso
      dsimp only at hcount
      simp [handleErrorWithCacheFallback] at hcount
      rcases hm : mapGet c' key' with _ | cached <;> rw [hm] at hcount <;>
        simp at hcount
  · intro cache' now' iso' key' p nf' em' env c' n' hres hlen
    unfold listEndpoint
    rw [hres]
    dsimp only
    rw [if_neg hlen]
    exact ⟨rfl, rfl⟩
  · intro cache' now' iso' key' p nf' em' env c' n' hres hlen
    unfold listEndpoint
    rw [hres]
    dsimp only
    rw [if_pos hlen]
    exact ⟨rfl, rfl⟩
  · intro cache' now' iso' key' e' nf' em' hm
    unfold listEndpoint
    rw [getCachedData_cold hm]
    simp only [fetchFresh]
    simp only [handleErrorWithCacheFallback, hm]
    exact ⟨trivial, trivial⟩

/-- C8 witness: on the concrete stale scenario the fallback body has data
but no count, and the presence direction instantiates: every fresh success
carries `count` equal to the served list's length, while 404 and 500 bodies
carry neither `count` nor `data`. -/
theorem C8_count_field_witness :
    (((listEndpoint [("k", ⟨⟨"success", "t0", [(5 : ℕ)]⟩, 0⟩)] CACHE_DURATION
        "t1" "k" (Except.error "boom") "nf" "em").1.count = none ∧
      (listEndpoint [("k", ⟨⟨"success", "t0", [(5 : ℕ)]⟩, 0⟩)] CACHE_DURATION
        "t1" "k" (Except.error "boom") "nf" "em").1.data = some [5]) ∧
    (∀ (cache' : Cache (List ℕ)) (now' : ℤ) (iso' key' : String)
       (p : Except String (List ℕ)) (nf' em' : String) (n : Nat),
      (listEndpoint cache' now' iso' key' p nf' em').1.count = some n →
      ∃ l, (listEndpoint cache' now' iso' key' p nf' em').1.data = some l ∧
        n = l.length ∧
        (listEndpoint cache' now' iso' key' p nf' em').1.message = none ∧
        (listEndpoint cache' now' iso' key' p nf' em').1.httpStatus = 200) ∧
    (∀ (cache' : Cache (List ℕ)) (now' : ℤ) (iso' key' : String)
       (p : Except String (List ℕ)) (nf' em' : String)
       (env : Envelope (List ℕ)) (c' : Cache (List ℕ)) (n' : Nat),
      getCachedData cache' now' iso' key' p = (Except.ok env, c', n') →
      env.data.length ≠ 0 →
      (listEndpoint cache' now' iso' key' p nf' em').1.count =
        some env.data.length ∧
      (listEndpoint cache' now' iso' key' p nf' em').1.data =
        some env.data) ∧
    (∀ (cache' : Cache (List ℕ)) (now' : ℤ) (iso' key' : String)
       (p : Except String (List ℕ)) (nf' em' : String)
       (env : Envelope (List ℕ)) (c' : Cache (List ℕ)) (n' : Nat),
      getCachedData cache' now' iso' key' p = (Except.ok env, c', n') →
      env.data.length = 0 →
      (listEndpoint cache' now' iso' key' p nf' em').1.count = none ∧
      (listEndpoint cache' now' iso' key' p nf' em').1.data = none) ∧
    (∀ (cache' : Cache (List ℕ)) (now' : ℤ) (iso' key' e' nf' em' : String),
      mapGet cache' key' = none →
      (listEndpoint cache' now' iso' key' (Except.error e') nf' em').1.count =
        none ∧
      (listEndpoint cache' now' iso' key' (Except.error e') nf' em').1.data =
        none)) :=
  C8_count_field [("k", ⟨⟨"success", "t0", [5]⟩, 0⟩)] CACHE_DURATION "t1" "k"
    "boom" "nf" "em" ⟨⟨"success", "t0", [5]⟩, 0⟩ (by decide) (by decide)

/-- C9: Sweep law — one `cleanupCache` pass removes exactly the entries
older than twice the freshness window (younger entries survive unchanged), a
key swept away behaves on its next call like a first-ever cold call (the
producer is invoked and the call's outcome matches the empty-cache outcome),
and sweeping a cache with no doubly-stale entries returns it unchanged with
a reported count of zero. -/
theorem C9_sweep {α : Type} (cache : Cache α) (now : ℤ)
    (hnd : (cacheKeys cache).Nodup) :
    (∀ (k : String) (e : CacheEntry α), mapGet cache k = some e →
      (now - e.timestamp > 2 * CACHE_DURATION →
        mapGet (cleanupCache cache now).1 k = none) ∧
      (¬now - e.timestamp > 2 * CACHE_DURATION →
        mapGet (cleanupCache cache now).1 k = some e)) ∧
    (∀ (k : String) (e : CacheEntry α), mapGet cache k = some e →
      now - e.timestamp > 2 * CACHE_DURATION →
      ∀ (t : ℤ) (iso : String) (p : Except String α),
        (getCachedData (cleanupCache cache now).1 t iso k p).1 =
          (getCachedData ([] : Cache α) t iso k p).1 ∧
        (getCachedData (cleanupCache cache now).1 t iso k p).2.2 =
          (getCachedData ([] : Cache α) t iso k p).2.2) ∧
    ((∀ kv ∈ cache, ¬now - kv.2.timestamp > 2 * CACHE_DURATION) →
      cleanupCache cache now = (cache, 0)) := by
  have hswept : ∀ (k : String) (e : CacheEntry α), mapGet cache k = some e →
      now - e.timestamp > 2 * CACHE_DURATION →
      mapGet (cleanupCache cache now).1 k = none := by
    intro k e hm hold
    unfold cleanupCache
    exact mapGet_filter_neg hnd hm (by simp [hold])
  refine ⟨?_, ?_, cleanupCache_clean cache now⟩
  · intro k e hm
    refine ⟨hswept k e hm, ?_⟩
    intro hyoung
    unfold cleanupCache
    exact mapGet_filter_pos hnd hm (by simp [hyoung])
  · intro k e hm hold t iso p
    rw [getCachedData_cold (hswept k e hm hold),
      getCachedData_cold (show mapGet ([] : Cache α) k = none from rfl)]
    cases p <;> simp [fetchFresh]

/-- C9 witness: sweeping a cache holding one doubly-stale entry and one
fresh entry removes exactly the stale one; the removed key then behaves
cold, and sweeping a clean cache reports zero. -/
theorem C9_sweep_witness :
    ((∀ (k : String) (e : CacheEntry ℕ),
      mapGet [("a", ⟨⟨"success", "t0", 1⟩, 0⟩),
              ("b", ⟨⟨"success", "t1", 2⟩, 2 * CACHE_DURATION⟩)] k = some e →
      (2 * CACHE_DURATION + 1 - e.timestamp > 2 * CACHE_DURATION →
        mapGet (cleanupCache [("a", ⟨⟨"success", "t0", 1⟩, 0⟩),
          ("b", ⟨⟨"success", "t1", 2⟩, 2 * CACHE_DURATION⟩)]
          (2 * CACHE_DURATION + 1)).1 k = none) ∧
      (¬2 * CACHE_DURATION + 1 - e.timestamp > 2 * CACHE_DURATION →
        mapGet (cleanupCache [("a", ⟨⟨"success", "t0", 1⟩, 0⟩),
          ("b", ⟨⟨"success", "t1", 2⟩, 2 * CACHE_DURATION⟩)]
          (2 * CACHE_DURATION + 1)).1 k = some e)) ∧
    (∀ (k : String) (e : CacheEntry ℕ),
      mapGet [("a", ⟨⟨"success", "t0", 1⟩, 0⟩),
              ("b", ⟨⟨"success", "t1", 2⟩, 2 * CACHE_DURATION⟩)] k = some e →
      2 * CACHE_DURATION + 1 - e.timestamp > 2 * CACHE_DURATION →
      ∀ (t : ℤ) (iso : String) (p : Except String ℕ),
        (getCachedData (cleanupCache [("a", ⟨⟨"success", "t0", 1⟩, 0⟩),
          ("b", ⟨⟨"success", "t1", 2⟩, 2 * CACHE_DURATION⟩)]
          (2 * CACHE_DURATION + 1)).1 t iso k p).1 =
          (getCachedData ([] : Cache ℕ) t iso k p).1 ∧
        (getCachedData (cleanupCache [("a", ⟨⟨"success", "t0", 1⟩, 0⟩),
          ("b", ⟨⟨"success", "t1", 2⟩, 2 * CACHE_DURATION⟩)]
          (2 * CACHE_DURATION + 1)).1 t iso k p).2.2 =
          (getCachedData ([] : Cache ℕ) t iso k p).2.2) ∧
    ((∀ kv ∈ [("a", (⟨⟨"success", "t0", 1⟩, 0⟩ : CacheEntry ℕ)),
              ("b", ⟨⟨"success", "t1", 2⟩, 2 * CACHE_DURATION⟩)],
      ¬2 * CACHE_DURATION + 1 - kv.2.timestamp > 2 * CACHE_DURATION) →
      cleanupCache [("a", ⟨⟨"success", "t0", 1⟩, 0⟩),
        ("b", ⟨⟨"success", "t1", 2⟩, 2 * CACHE_DURATION⟩)]
        (2 * CACHE_DURATION + 1) =
        ([("a", ⟨⟨"success", "t0", 1⟩, 0⟩),
          ("b", ⟨⟨"success", "t1", 2⟩, 2 * CACHE_DURATION⟩)], 0))) :=
  C9_sweep [("a", ⟨⟨"success", "t0", 1⟩, 0⟩),
    ("b", ⟨⟨"success", "t1", 2⟩, 2 * CACHE_DURATION⟩)]
    (2 * CACHE_DURATION + 1) (by decide)

/-- C10: Implicit list-size cap — `scrapeTopGainers`, `scrapeTopLosers` and
`allTimeHighs` collect at most 10 non-sponsored rows regardless of the
page's row list, and a cold list-endpoint call fed by such a producer serves
at most 10 records. -/
theorem C10_list_cap {β : Type} (rows : List (Bool × β))
    (cache : Cache (List β)) (now : ℤ) (iso key nf em : String)
    (hcold : mapGet cache key = none) :
    (scrapeTopGainers rows).length ≤ 10 ∧
    (scrapeTopLosers rows).length ≤ 10 ∧
    (allTimeHighs rows).length ≤ 10 ∧
    (((listEndpoint cache now iso key (Except.ok (scrapeTopGainers rows))
      nf em).1.data).getD []).length ≤ 10 := by
  have hlen : (collectRowsAux rows 0).length ≤ 10 := by
    have := collectRowsAux_length rows 0 (by norm_num)
    omega
  refine ⟨hlen, hlen, hlen, ?_⟩
  unfold listEndpoint
  rw [getCachedData_cold hcold]
  simp only [fetchFresh]
  by_cases h0 : (scrapeTopGainers rows).length = 0
  · dsimp only
    rw [if_pos (by exact h0)]
    simp
  · dsimp only
    rw [if_neg (by exact h0)]
    simpa using hlen

/-- C10 witness: with no rows and an empty cache, every scraper yields at
most 10 records and the endpoint serves at most 10. -/
theorem C10_list_cap_witness :
    (scrapeTopGainers ([] : List (Bool × ℕ))).length ≤ 10 ∧
    (scrapeTopLosers ([] : List (Bool × ℕ))).length ≤ 10 ∧
    (allTimeHighs ([] : List (Bool × ℕ))).length ≤ 10 ∧
    (((listEndpoint ([] : Cache (List ℕ)) 0 "t0" "k"
      (Except.ok (scrapeTopGainers ([] : List (Bool × ℕ)))) "nf" "em").1.data
      ).getD []).length ≤ 10 :=
  C10_list_cap [] [] 0 "t0" "k" "nf" "em" (by decide)

/-- C2 counterexample: on "1MB" the code's detection (case-sensitive, with
million/M checked before billion/B) yields ×10⁶ while the claim's order
(billion/B before million/M) demands ×10⁹; on "5b" the code finds no scale
(case-sensitive) while the claim's case-insensitive detection demands ×10⁹. -/
theorem C2_counterexample :
    marketCapTextToNum "1MB" = some 1000000 ∧
    (parseFloat (stripNonNumeric "1MB".data)).map (· * claimScaleOf "1MB") =
      some 1000000000 ∧
    marketCapTextToNum "5b" = some 5 ∧
    (parseFloat (stripNonNumeric "5b".data)).map (· * claimScaleOf "5b") =
      some 5000000000 ∧
    marketCapTextToNum "1MB" ≠
      (parseFloat (stripNonNumeric "1MB".data)).map (· * claimScaleOf "1MB") ∧
    marketCapTextToNum "5b" ≠
      (parseFloat (stripNonNumeric "5b".data)).map (· * claimScaleOf "5b") := by
  refine ⟨by decide, by decide, by decide, by decide, by decide, by decide⟩

/-- C2 (amended): scale detection is case-sensitive substring containment in
the source's first-match order — "trillion"/"T" → ×10¹², then
"million"/"M" → ×10⁶, then "billion"/"B" → ×10⁹, else ×1 — and the result is
always the number parsed from the input stripped of every character that is
not a digit, decimal point or minus sign, times that single multiplier. -/
theorem C2_scale_detection (t : String) :
    marketCapTextToNum t =
      (parseFloat (stripNonNumeric t.data)).map (· * scaleOf t) := by
  unfold marketCapTextToNum scaleOf
  cases hA : (strIncludes t "trillion" || strIncludes t "T") with
  | true => simp [hA]
  | false =>
    cases hB : (strIncludes t "million" || strIncludes t "M") with
    | true => simp [hA, hB]
    | false =>
      cases hC : (strIncludes t "billion" || strIncludes t "B") with
      | true => simp [hA, hB, hC]
      | false =>
        simp only [hA, hB, hC, Bool.false_eq_true, if_false]
        cases hres : parseFloat (stripNonNumeric t.data) <;> simp

/-- C6 counterexample: the value 1/2500 (= 0.0004) lies in the plain tier
(below 10⁶) but formats as "$0", which parses back to 0 — a 100% relative
error, far beyond the claimed 1%. -/
theorem C6_counterexample :
    marketCapTextToNum (marketCapNumToText (1 / 2500 : ℚ)) = some 0 ∧
    ¬|(0 : ℚ) - 1 / 2500| ≤ (1 / 2500 : ℚ) / 100 := by
  constructor
  · decide
  · rw [abs_of_nonpos (by norm_num)]
    norm_num

/-- C6 (amended): for every non-negative magnitude the round trip
`textToNumber ∘ numberToText` lands within 1% relative error on each scale
tier, with the plain tier (v < 10⁶) restricted to v = 0 or v ≥ 1/20 — below
that the three-decimal locale rendering rounds the value away (e.g. 0.0004
renders as "$0"), which is what the counterexample exhibits. -/
theorem C6_round_trip (v : ℚ) (hv : 0 ≤ v) :
    (10 ^ 12 ≤ v → ∃ r, marketCapTextToNum (marketCapNumToText v) = some r ∧
      |r - v| ≤ v / 100) ∧
    (10 ^ 9 ≤ v → v < 10 ^ 12 →
      ∃ r, marketCapTextToNum (marketCapNumToText v) = some r ∧
        |r - v| ≤ v / 100) ∧
    (10 ^ 6 ≤ v → v < 10 ^ 9 →
      ∃ r, marketCapTextToNum (marketCapNumToText v) = some r ∧
        |r - v| ≤ v / 100) ∧
    (v < 10 ^ 6 → v = 0 ∨ 1 / 20 ≤ v →
      ∃ r, marketCapTextToNum (marketCapNumToText v) = some r ∧
        |r - v| ≤ v / 100) := by
  refine ⟨?_, ?_, ?_, ?_⟩
  · intro h
    exact ⟨_, roundTrip_trillion v h,
      fixed2_roundtrip_bound v (10 ^ 12) (by norm_num) h⟩
  · intro h hlt
    exact ⟨_, roundTrip_billion v (not_le.mpr hlt) h,
      fixed2_roundtrip_bound v (10 ^ 9) (by norm_num) h⟩
  · intro h hlt
    have h12 : ¬10 ^ 12 ≤ v := fun hc => (not_le.mpr hlt) (le_trans (by norm_num) hc)
    exact ⟨_, roundTrip_million v h12 (not_le.mpr hlt) h,
      fixed2_roundtrip_bound v (10 ^ 6) (by norm_num) h⟩
  · intro h hcase
    rcases hcase with h0 | h20
    · subst h0
      refine ⟨0, ?_, by norm_num⟩
      rw [roundTrip_plain 0 le_rfl (by norm_num)]
      norm_num
    · exact ⟨_, roundTrip_plain v hv h, locale_roundtrip_bound v h20⟩

/-- C6 witness: the round trip at 2.3 billion is exact to within 1%. -/
theorem C6_round_trip_witness :
    ∃ r, marketCapTextToNum (marketCapNumToText (2300000000 : ℚ)) = some r ∧
      |r - 2300000000| ≤ 2300000000 / 100 :=
  (C6_round_trip 2300000000 (by norm_num)).2.1 (by norm_num) (by norm_num)

/-- C7: Boundary law — tier lower bounds are inclusive: 10⁹ renders as
"$1.00 billion", 10⁹−1 as "$1000.00 million", 2300000000 as "$2.30 billion";
every value ≥ 10¹² ends in "trillion", every value in [10⁶, 10⁹) ends in
"million", and every non-negative value below 10⁶ renders as "$" followed
only by grouped decimal characters (digits, commas, a decimal point). -/
theorem C7_boundaries :
    marketCapNumToText ((10 : ℚ) ^ 9) = "$1.00 billion" ∧
    marketCapNumToText ((10 : ℚ) ^ 9 - 1) = "$1000.00 million" ∧
    marketCapNumToText (2300000000 : ℚ) = "$2.30 billion" ∧
    (∀ v : ℚ, 10 ^ 12 ≤ v →
      endsWithL (marketCapNumToText v).data "trillion".data = true) ∧
    (∀ v : ℚ, 10 ^ 6 ≤ v → v < 10 ^ 9 →
      endsWithL (marketCapNumToText v).data "million".data = true) ∧
    (∀ v : ℚ, 0 ≤ v → v < 10 ^ 6 → ∀ c ∈ (marketCapNumToText v).data,
      isDigitC c = true ∨ c = '$' ∨ c = ',' ∨ c = '.') := by
  refine ⟨by decide, by decide, by decide, ?_, ?_, ?_⟩
  · intro v h
    rw [marketCapNumToText_trillion v h]
    rw [show (String.mk ('$' :: toFixed2 (v / 10 ^ 12) ++ " trillion".data)).data =
      (('$' :: toFixed2 (v / 10 ^ 12)) ++ [' ']) ++ "trillion".data from by simp]
    exact endsWithL_append _ _
  · intro v h hlt
    have h9 : ¬10 ^ 9 ≤ v := not_le.mpr hlt
    have h12 : ¬10 ^ 12 ≤ v := fun hc => h9 (le_trans (by norm_num) hc)
    rw [marketCapNumToText_million v h12 h9 h]
    rw [show (String.mk ('$' :: toFixed2 (v / 10 ^ 6) ++ " million".data)).data =
      (('$' :: toFixed2 (v / 10 ^ 6)) ++ [' ']) ++ "million".data from by simp]
    exact endsWithL_append _ _
  · intro v h0 h c hc
    rw [marketCapNumToText_plain v h, toLocaleStr_nonneg h0] at hc
    exact mem_locale_hay v hc

/-- C7 witness: one trillion ends in "trillion" and one million ends in
"million". -/
theorem C7_boundaries_witness :
    endsWithL (marketCapNumToText ((10 : ℚ) ^ 12)).data "trillion".data =
      true ∧
    endsWithL (marketCapNumToText ((10 : ℚ) ^ 6)).data "million".data =
      true :=
  ⟨C7_boundaries.2.2.2.1 (10 ^ 12) le_rfl,
   C7_boundaries.2.2.2.2.1 (10 ^ 6) le_rfl (by norm_num)⟩

end RatEval

end CryptoApi
